import Mathlib

/-!
Verification development for the oscillometric blood-pressure (OBP) measurement
program.  The repository's inspected sources are `ComediHandler.cpp` (the
hardware sample source) and `Window.cpp` (the presentation layer).  The
measurement engine itself (the `Processing` class: estimation algorithm,
measurement state machine, acquisition loop) is not among the inspected
sources, so those parts are modelled from the specification text, as marked in
their doc comments.  Real-valued quantities (`double` in the C++ code) are
modelled as rationals `ℚ`; machine integers as `ℕ`/`ℤ`.
-/

/- Batteries marks the `Rat` arithmetic operations irreducible, which blocks
`decide` on concrete rational computations; restore the default status for
this file so the embedded operations evaluate on concrete inputs. -/
attribute [local semireducible] Rat.mul Rat.inv Rat.add Rat.sub

/-- Decidable equality for `Except`, used to evaluate the embedded fallible
operations on concrete inputs. -/
instance {ε α : Type} [DecidableEq ε] [DecidableEq α] : DecidableEq (Except ε α) := fun x y =>
  match x, y with
  | .error a, .error b =>
    if h : a = b then .isTrue (by rw [h]) else .isFalse (fun hc => h (Except.error.inj hc))
  | .ok a, .ok b =>
    if h : a = b then .isTrue (by rw [h]) else .isFalse (fun hc => h (Except.ok.inj hc))
  | .error _, .ok _ => .isFalse (fun hc => Except.noConfusion hc)
  | .ok _, .error _ => .isFalse (fun hc => Except.noConfusion hc)

namespace OBP

/-! ## Envelope data model (spec section 3) -/

/-- One Envelope Point: `(cuffPressure, oscillationAmplitude)`.  Collected one
per detected oscillation during the deflation phase, ordered by decreasing
cuff pressure. -/
structure Point where
  pressure : ℚ
  amplitude : ℚ
deriving DecidableEq, Repr

/-- Measurement configuration: `{ratioSBP, ratioDBP, minNbrPeaks, pumpUpTarget}`. -/
structure MeasurementConfig where
  ratioSBP : ℚ
  ratioDBP : ℚ
  minNbrPeaks : ℕ
  pumpUpTarget : ℚ
deriving DecidableEq, Repr

/-- A computed measurement result `{map, sbp, dbp}` in mmHg. -/
structure MeasurementResult where
  map : ℚ
  sbp : ℚ
  dbp : ℚ
deriving DecidableEq, Repr

/-- The recoverable failure modes of the estimation algorithm (spec 4.5/7). -/
inductive EstimationError where
  | insufficientData
  | ratioCrossingNotFound
deriving DecidableEq, Repr

/-! ## Estimation algorithm (spec section 4.5)

Modelled from the spec: the estimation algorithm of the `Processing` /
`OBPDetection` component is missing from the inspected sources; the definitions
below follow spec section 4.5 word by word. -/

/-- Modelled from the spec: the maximum oscillation amplitude over a nonempty
Envelope sequence `p :: r`. -/
def maxAmp (p : Point) : List Point → ℚ
  | [] => p.amplitude
  | q :: r => max p.amplitude (maxAmp q r)

/-- Modelled from the spec: index of the MAP point in `p :: r`, i.e. the FIRST
point attaining the maximum oscillation amplitude (argmax with first-occurrence
tie-break, spec 4.5 step 2). -/
def mapIdx (p : Point) (r : List Point) : ℕ :=
  (p :: r).findIdx (fun q => decide (maxAmp p r ≤ q.amplitude))

/-- Modelled from the spec: the MAP point itself. -/
def mapPoint (p : Point) (r : List Point) : Point :=
  (p :: r).getD (mapIdx p r) p

/-- Modelled from the spec: scan from index `i` upward in pressure (indices
`i, i-1, …, 0` in the pressure-descending sequence) for the first point whose
amplitude is at or below `target` (spec 4.5 step 3). -/
def scanUp (env : List Point) (target : ℚ) : ℕ → Option Point
  | 0 =>
    match env[0]? with
    | some q => if q.amplitude ≤ target then some q else none
    | none => none
  | i + 1 =>
    match env[i + 1]? with
    | some q => if q.amplitude ≤ target then some q else scanUp env target i
    | none => scanUp env target i

/-- Modelled from the spec: scan a suffix of the Envelope downward in pressure
(list order) for the first point whose amplitude is at or below `target`
(spec 4.5 step 4). -/
def scanDown (target : ℚ) : List Point → Option Point
  | [] => none
  | q :: r => if q.amplitude ≤ target then some q else scanDown target r

/-- Modelled from the spec: the estimation algorithm of spec 4.5.
1. fewer than `minNbrPeaks` points → `InsufficientData`;
2. MAP = cuff pressure at the first point of maximum amplitude;
3. SBP = cuff pressure of the first point at/above MAP (scanning upward in
   pressure from MAP) with amplitude ≤ `ratioSBP × maxAmplitude`;
4. DBP = cuff pressure of the first point at/below MAP (scanning downward in
   pressure from MAP) with amplitude ≤ `ratioDBP × maxAmplitude`;
5. a side with no crossing → `RatioCrossingNotFound`. -/
def estimate (cfg : MeasurementConfig) (env : List Point) :
    Except EstimationError MeasurementResult :=
  if env.length < cfg.minNbrPeaks then .error .insufficientData
  else
    match env with
    | [] => .error .insufficientData
    | p :: r =>
      match scanUp (p :: r) (cfg.ratioSBP * maxAmp p r) (mapIdx p r),
            scanDown (cfg.ratioDBP * maxAmp p r) ((p :: r).drop (mapIdx p r)) with
      | some ps, some pd => .ok ⟨(mapPoint p r).pressure, ps.pressure, pd.pressure⟩
      | none, _ => .error .ratioCrossingNotFound
      | _, none => .error .ratioCrossingNotFound

/-! ## Properties of the maximum-amplitude selection -/

theorem le_maxAmp_head (p : Point) (r : List Point) : p.amplitude ≤ maxAmp p r := by
  cases r with
  | nil => exact le_refl _
  | cons q r => exact le_max_left _ _

theorem le_maxAmp_of_mem (p : Point) (r : List Point) (q : Point) (hq : q ∈ r) :
    q.amplitude ≤ maxAmp p r := by
  induction r generalizing p with
  | nil => cases hq
  | cons a r ih =>
    rcases List.mem_cons.mp hq with h | h
    · subst h
      exact le_trans (le_maxAmp_head q r) (le_max_right _ _)
    · exact le_trans (ih a h) (le_max_right _ _)

theorem le_maxAmp_of_mem_cons (p : Point) (r : List Point) (q : Point) (hq : q ∈ p :: r) :
    q.amplitude ≤ maxAmp p r := by
  rcases List.mem_cons.mp hq with h | h
  · rw [h]; exact le_maxAmp_head p r
  · exact le_maxAmp_of_mem p r q h

theorem maxAmp_attained (p : Point) (r : List Point) :
    ∃ q ∈ p :: r, q.amplitude = maxAmp p r := by
  induction r generalizing p with
  | nil => exact ⟨p, List.mem_cons_self _ _, rfl⟩
  | cons a r ih =>
    rcases le_total p.amplitude (maxAmp a r) with h | h
    · rcases ih a with ⟨q, hq, hamp⟩
      refine ⟨q, List.mem_cons_of_mem _ hq, ?_⟩
      show q.amplitude = max p.amplitude (maxAmp a r)
      rw [hamp, max_eq_right h]
    · refine ⟨p, List.mem_cons_self _ _, ?_⟩
      show p.amplitude = max p.amplitude (maxAmp a r)
      rw [max_eq_left h]

/-! ## Properties of the MAP index (first argmax) -/

theorem mapIdx_lt_length (p : Point) (r : List Point) : mapIdx p r < (p :: r).length := by
  apply List.findIdx_lt_length_of_exists
  rcases maxAmp_attained p r with ⟨q, hq, hamp⟩
  exact ⟨q, hq, by simp [hamp]⟩

theorem amp_at_mapIdx (p : Point) (r : List Point) (hlt : mapIdx p r < (p :: r).length) :
    ((p :: r)[mapIdx p r]).amplitude = maxAmp p r := by
  have h1 : decide (maxAmp p r ≤ ((p :: r)[mapIdx p r]).amplitude) = true := by
    have h0 : (p :: r).findIdx (fun q => decide (maxAmp p r ≤ q.amplitude)) <
        (p :: r).length := hlt
    have := List.findIdx_getElem (w := h0)
    simpa [mapIdx] using this
  have h2 := of_decide_eq_true h1
  have h3 : ((p :: r)[mapIdx p r]).amplitude ≤ maxAmp p r :=
    le_maxAmp_of_mem_cons p r _ (List.getElem_mem _)
  exact le_antisymm h3 h2

theorem amp_before_mapIdx (p : Point) (r : List Point) (j : ℕ) (hj : j < mapIdx p r)
    (hjl : j < (p :: r).length) :
    ((p :: r)[j]).amplitude < maxAmp p r := by
  have h1 : decide (maxAmp p r ≤ ((p :: r)[j]).amplitude) = false :=
    List.not_of_lt_findIdx hj
  rw [decide_eq_false_iff_not] at h1
  exact lt_of_not_le h1

theorem mapPoint_eq_getElem (p : Point) (r : List Point)
    (hlt : mapIdx p r < (p :: r).length) :
    mapPoint p r = (p :: r)[mapIdx p r] := by
  unfold mapPoint
  rw [List.getD_eq_getElem _ _ hlt]

/-! ## Characterization of the two ratio-crossing scans -/

theorem scanUp_zero_of_lt (env : List Point) (target : ℚ) (hi : 0 < env.length) :
    scanUp env target 0 =
      if (env[0]).amplitude ≤ target then some (env[0]) else none := by
  rw [scanUp, List.getElem?_eq_getElem hi]

theorem scanUp_succ_of_lt (env : List Point) (target : ℚ) (i : ℕ) (hi : i + 1 < env.length) :
    scanUp env target (i + 1) =
      if (env[i + 1]).amplitude ≤ target then some (env[i + 1])
      else scanUp env target i := by
  rw [scanUp, List.getElem?_eq_getElem hi]

theorem scanUp_eq_some (env : List Point) (target : ℚ) (i : ℕ) (hi : i < env.length)
    (q : Point) (h : scanUp env target i = some q) :
    ∃ (j : ℕ) (hj : j < env.length), j ≤ i ∧ env[j] = q ∧ q.amplitude ≤ target ∧
      ∀ (k : ℕ) (hk : k < env.length), j < k → k ≤ i → target < (env[k]).amplitude := by
  induction i with
  | zero =>
    rw [scanUp_zero_of_lt env target hi] at h
    by_cases h0 : (env[0]).amplitude ≤ target
    · rw [if_pos h0] at h
      injection h with h
      subst h
      exact ⟨0, hi, le_refl 0, rfl, h0, fun k hk h1 h2 => by omega⟩
    · rw [if_neg h0] at h
      cases h
  | succ i ih =>
    rw [scanUp_succ_of_lt env target i hi] at h
    by_cases hs : (env[i + 1]).amplitude ≤ target
    · rw [if_pos hs] at h
      injection h with h
      subst h
      exact ⟨i + 1, hi, le_refl _, rfl, hs, fun k hk h1 h2 => by omega⟩
    · rw [if_neg hs] at h
      have hi2 : i < env.length := by omega
      rcases ih hi2 h with ⟨j, hj, hji, hjq, hqa, hall⟩
      refine ⟨j, hj, by omega, hjq, hqa, ?_⟩
      intro k hk h1 h2
      by_cases hk2 : k ≤ i
      · exact hall k hk h1 hk2
      · have hk3 : k = i + 1 := by omega
        subst hk3
        exact lt_of_not_le hs

theorem scanUp_eq_none_iff (env : List Point) (target : ℚ) (i : ℕ) (hi : i < env.length) :
    scanUp env target i = none ↔
      ∀ (j : ℕ) (hj : j < env.length), j ≤ i → target < (env[j]).amplitude := by
  induction i with
  | zero =>
    rw [scanUp_zero_of_lt env target hi]
    by_cases h0 : (env[0]).amplitude ≤ target
    · rw [if_pos h0]
      constructor
      · intro hc; cases hc
      · intro hall; exact absurd h0 (not_le.mpr (hall 0 hi (le_refl 0)))
    · rw [if_neg h0]
      constructor
      · intro hnone j hj hj0
        have hj1 : j = 0 := Nat.le_zero.mp hj0
        subst hj1
        exact lt_of_not_le h0
      · intro hall; rfl
  | succ i ih =>
    rw [scanUp_succ_of_lt env target i hi]
    have hi2 : i < env.length := by omega
    by_cases hs : (env[i + 1]).amplitude ≤ target
    · rw [if_pos hs]
      constructor
      · intro hc; cases hc
      · intro hall; exact absurd hs (not_le.mpr (hall (i + 1) hi (le_refl _)))
    · rw [if_neg hs, ih hi2]
      constructor
      · intro hall j hj hji
        by_cases hj2 : j ≤ i
        · exact hall j hj hj2
        · have hj3 : j = i + 1 := by omega
          subst hj3
          exact lt_of_not_le hs
      · intro hall j hj hji
        exact hall j hj (by omega)

theorem scanDown_eq_some (target : ℚ) (l : List Point) (q : Point)
    (h : scanDown target l = some q) :
    ∃ (j : ℕ) (hj : j < l.length), l[j] = q ∧ q.amplitude ≤ target ∧
      ∀ (k : ℕ) (hk : k < l.length), k < j → target < (l[k]).amplitude := by
  induction l with
  | nil => cases h
  | cons a l ih =>
    rw [scanDown] at h
    by_cases ha : a.amplitude ≤ target
    · rw [if_pos ha] at h
      injection h with h
      subst h
      exact ⟨0, by simp, rfl, ha, fun k hk hk0 => absurd hk0 (Nat.not_lt_zero k)⟩
    · rw [if_neg ha] at h
      rcases ih h with ⟨j, hj, hjq, hq, hall⟩
      refine ⟨j + 1, by simpa using Nat.succ_lt_succ hj, hjq, hq, ?_⟩
      intro k hk hkj
      cases k with
      | zero => exact lt_of_not_le ha
      | succ k => exact hall k (by simpa using hk) (by omega)

theorem scanDown_eq_none_iff (target : ℚ) (l : List Point) :
    scanDown target l = none ↔ ∀ q ∈ l, target < q.amplitude := by
  induction l with
  | nil => simp [scanDown]
  | cons a l ih =>
    by_cases ha : a.amplitude ≤ target
    · rw [scanDown, if_pos ha]
      constructor
      · intro hc; cases hc
      · intro hall; exact absurd ha (not_le.mpr (hall a (List.mem_cons_self a l)))
    · rw [scanDown, if_neg ha, ih]
      constructor
      · intro hall q hq
        rcases List.mem_cons.mp hq with h | h
        · rw [h]; exact lt_of_not_le ha
        · exact hall q h
      · intro hall q hq
        exact hall q (List.mem_cons_of_mem _ hq)

/-! ## Destructuring successful runs of the estimation algorithm -/

theorem estimate_ok_destruct (cfg : MeasurementConfig) (env : List Point)
    (res : MeasurementResult) (h : estimate cfg env = .ok res) :
    ∃ (p : Point) (r : List Point), env = p :: r ∧
      cfg.minNbrPeaks ≤ env.length ∧
      res.map = (mapPoint p r).pressure ∧
      (∃ ps, scanUp (p :: r) (cfg.ratioSBP * maxAmp p r) (mapIdx p r) = some ps ∧
        res.sbp = ps.pressure) ∧
      (∃ pd, scanDown (cfg.ratioDBP * maxAmp p r) ((p :: r).drop (mapIdx p r)) = some pd ∧
        res.dbp = pd.pressure) := by
  unfold estimate at h
  split at h
  · cases h
  next hlen =>
    split at h
    · cases h
    next p r =>
      split at h
      next ps pd hup hdown =>
        injection h with h
        subst h
        exact ⟨p, r, rfl, le_of_not_lt hlen, rfl, ⟨ps, hup, rfl⟩, ⟨pd, hdown, rfl⟩⟩
      next hup hdown => cases h
      next hup hdown => cases h

/-- If `i` attains the maximum amplitude and all earlier indices are strictly
below it, `i` is the first argmax index. -/
theorem first_argmax_unique (p : Point) (r : List Point) (i : ℕ)
    (hi : i < (p :: r).length)
    (hmax : ∀ (j : ℕ) (hj : j < (p :: r).length),
      ((p :: r)[j]).amplitude ≤ ((p :: r)[i]).amplitude)
    (hfirst : ∀ (j : ℕ) (hj : j < (p :: r).length), j < i →
      ((p :: r)[j]).amplitude < ((p :: r)[i]).amplitude) :
    i = mapIdx p r := by
  have hiMax : ((p :: r)[i]).amplitude = maxAmp p r := by
    refine le_antisymm (le_maxAmp_of_mem_cons p r _ (List.getElem_mem _)) ?_
    rcases maxAmp_attained p r with ⟨q, hq, hamp⟩
    rcases List.mem_iff_getElem.mp hq with ⟨j, hj, hjq⟩
    have hle := hmax j hj
    rw [hjq, hamp] at hle
    exact hle
  by_contra hne
  rcases Nat.lt_or_ge i (mapIdx p r) with hlt | hge
  · have hstrict := amp_before_mapIdx p r i hlt hi
    rw [hiMax] at hstrict
    exact lt_irrefl _ hstrict
  · have hm : mapIdx p r < i := lt_of_le_of_ne hge (fun e => hne e.symm)
    have h1 := hfirst (mapIdx p r) (mapIdx_lt_length p r) hm
    have h2 : ((p :: r)[mapIdx p r]).amplitude = maxAmp p r :=
      amp_at_mapIdx p r (mapIdx_lt_length p r)
    rw [h2, hiMax] at h1
    exact lt_irrefl _ h1

/-! ## The claims about the estimation algorithm -/

/-- C1: for every Envelope Point sequence the estimation algorithm accepts
(hence one with at least `minNbrPeaks` points), the returned MAP equals the
cuff pressure of the point of maximum oscillation amplitude, and when several
points attain the maximum, the first occurrence (earliest in deflation, i.e.
highest pressure in the pressure-descending sequence) is taken: every earlier
point has strictly smaller amplitude. -/
theorem C1_map_is_first_argmax (cfg : MeasurementConfig) (env : List Point)
    (res : MeasurementResult) (h : estimate cfg env = .ok res) :
    cfg.minNbrPeaks ≤ env.length ∧
    ∃ (i : ℕ) (hi : i < env.length),
      res.map = (env[i]).pressure ∧
      (∀ (j : ℕ) (hj : j < env.length), (env[j]).amplitude ≤ (env[i]).amplitude) ∧
      (∀ (j : ℕ) (hj : j < env.length), j < i →
        (env[j]).amplitude < (env[i]).amplitude) := by
  rcases estimate_ok_destruct cfg env res h with ⟨p, r, henv, hlen, hmap, hsbp, hdbp⟩
  subst henv
  have hi : mapIdx p r < (p :: r).length := mapIdx_lt_length p r
  have hAt : ((p :: r)[mapIdx p r]).amplitude = maxAmp p r := amp_at_mapIdx p r hi
  refine ⟨hlen, mapIdx p r, hi, ?_, ?_, ?_⟩
  · rw [hmap, mapPoint_eq_getElem p r hi]
  · intro j hj
    rw [hAt]
    exact le_maxAmp_of_mem_cons p r _ (List.getElem_mem _)
  · intro j hj hji
    rw [hAt]
    exact amp_before_mapIdx p r j hji hj

/-- Shared concrete Envelope data used by the witnesses of the estimation
claims: a rise-then-fall amplitude profile peaking at pressure 120. -/
def envW : List Point := [⟨160, 2⟩, ⟨140, 5⟩, ⟨120, 10⟩, ⟨100, 7⟩, ⟨80, 3⟩]

/-- Shared concrete configuration used by the witnesses of the estimation
claims. -/
def cfgW : MeasurementConfig := ⟨1/2, 3/4, 3, 180⟩

/-- The result the estimation algorithm computes on `envW` with `cfgW`. -/
def resW : MeasurementResult := ⟨120, 140, 100⟩

/-- Witness for C1: the theorem applied to the concrete five-point envelope
`envW`, where the algorithm succeeds. -/
theorem C1_witness :
    cfgW.minNbrPeaks ≤ envW.length ∧
    ∃ (i : ℕ) (hi : i < envW.length),
      resW.map = (envW[i]).pressure ∧
      (∀ (j : ℕ) (hj : j < envW.length), (envW[j]).amplitude ≤ (envW[i]).amplitude) ∧
      (∀ (j : ℕ) (hj : j < envW.length), j < i →
        (envW[j]).amplitude < (envW[i]).amplitude) :=
  C1_map_is_first_argmax cfgW envW resW (by decide)

/-- Index congruence for list access (used to transport facts along arithmetic
identities between indices). -/
theorem getElem_congr_idx (l : List Point) {a b : ℕ} (ha : a < l.length)
    (hb : b < l.length) (h : a = b) : l[a] = l[b] := by
  subst h
  rfl

/-- C2: on every accepted Envelope sequence, SBP is the cuff pressure of the
first point at or above MAP (scanning from the MAP index toward higher
pressure, i.e. decreasing index) whose amplitude is at or below
`ratioSBP × maxAmplitude`, and DBP is the cuff pressure of the first point at
or below MAP (scanning toward lower pressure, i.e. increasing index) whose
amplitude is at or below `ratioDBP × maxAmplitude`.  Index `i` is the MAP
index, so `(env[i]).amplitude` is the maximum amplitude. -/
theorem C2_sbp_dbp_first_ratio_crossing (cfg : MeasurementConfig) (env : List Point)
    (res : MeasurementResult) (h : estimate cfg env = .ok res) :
    ∃ (i : ℕ) (hi : i < env.length),
      res.map = (env[i]).pressure ∧
      (∀ (j : ℕ) (hj : j < env.length), (env[j]).amplitude ≤ (env[i]).amplitude) ∧
      (∃ (j : ℕ) (hj : j < env.length), j ≤ i ∧
        res.sbp = (env[j]).pressure ∧
        (env[j]).amplitude ≤ cfg.ratioSBP * (env[i]).amplitude ∧
        ∀ (k : ℕ) (hk : k < env.length), j < k → k ≤ i →
          cfg.ratioSBP * (env[i]).amplitude < (env[k]).amplitude) ∧
      (∃ (j : ℕ) (hj : j < env.length), i ≤ j ∧
        res.dbp = (env[j]).pressure ∧
        (env[j]).amplitude ≤ cfg.ratioDBP * (env[i]).amplitude ∧
        ∀ (k : ℕ) (hk : k < env.length), i ≤ k → k < j →
          cfg.ratioDBP * (env[i]).amplitude < (env[k]).amplitude) := by
  rcases estimate_ok_destruct cfg env res h with
    ⟨p, r, henv, hlen, hmap, ⟨ps, hup, hsbp⟩, ⟨pd, hdown, hdbp⟩⟩
  subst henv
  have hi : mapIdx p r < (p :: r).length := mapIdx_lt_length p r
  have hAt : ((p :: r)[mapIdx p r]).amplitude = maxAmp p r := amp_at_mapIdx p r hi
  refine ⟨mapIdx p r, hi, ?_, ?_, ?_, ?_⟩
  · rw [hmap, mapPoint_eq_getElem p r hi]
  · intro j hj
    rw [hAt]
    exact le_maxAmp_of_mem_cons p r _ (List.getElem_mem _)
  · rcases scanUp_eq_some (p :: r) (cfg.ratioSBP * maxAmp p r) (mapIdx p r) hi ps hup
      with ⟨j, hj, hji, hjq, hqa, hall⟩
    refine ⟨j, hj, hji, ?_, ?_, ?_⟩
    · rw [hsbp, ← hjq]
    · rw [hAt, hjq]
      exact hqa
    · intro k hk h1 h2
      rw [hAt]
      exact hall k hk h1 h2
  · rcases scanDown_eq_some (cfg.ratioDBP * maxAmp p r) ((p :: r).drop (mapIdx p r)) pd hdown
      with ⟨j0, hj0, hjq, hqa, hall⟩
    have hj0l : j0 < (p :: r).length - mapIdx p r := by
      rw [List.length_drop] at hj0
      exact hj0
    have hj1 : mapIdx p r + j0 < (p :: r).length := by omega
    have hdropj : ((p :: r).drop (mapIdx p r))[j0] = (p :: r)[mapIdx p r + j0] :=
      List.getElem_drop _
    refine ⟨mapIdx p r + j0, hj1, Nat.le_add_right _ _, ?_, ?_, ?_⟩
    · rw [hdbp, ← hjq, hdropj]
    · rw [hAt, ← hdropj, hjq]
      exact hqa
    · intro k hk h1 h2
      rw [hAt]
      have hk0 : k - mapIdx p r < ((p :: r).drop (mapIdx p r)).length := by
        rw [List.length_drop]
        omega
      have hstep := hall (k - mapIdx p r) hk0 (by omega)
      have hdropk : ((p :: r).drop (mapIdx p r))[k - mapIdx p r] =
          (p :: r)[mapIdx p r + (k - mapIdx p r)] :=
        List.getElem_drop _
      have hbound : mapIdx p r + (k - mapIdx p r) < (p :: r).length := by omega
      have hix : mapIdx p r + (k - mapIdx p r) = k := by omega
      rw [hdropk, getElem_congr_idx (p :: r) hbound hk hix] at hstep
      exact hstep

/-- Witness for C2: the theorem applied to the concrete five-point envelope
`envW`, where the algorithm succeeds with SBP crossing at 140 and DBP crossing
at 100. -/
theorem C2_witness :
    ∃ (i : ℕ) (hi : i < envW.length),
      resW.map = (envW[i]).pressure ∧
      (∀ (j : ℕ) (hj : j < envW.length), (envW[j]).amplitude ≤ (envW[i]).amplitude) ∧
      (∃ (j : ℕ) (hj : j < envW.length), j ≤ i ∧
        resW.sbp = (envW[j]).pressure ∧
        (envW[j]).amplitude ≤ cfgW.ratioSBP * (envW[i]).amplitude ∧
        ∀ (k : ℕ) (hk : k < envW.length), j < k → k ≤ i →
          cfgW.ratioSBP * (envW[i]).amplitude < (envW[k]).amplitude) ∧
      (∃ (j : ℕ) (hj : j < envW.length), i ≤ j ∧
        resW.dbp = (envW[j]).pressure ∧
        (envW[j]).amplitude ≤ cfgW.ratioDBP * (envW[i]).amplitude ∧
        ∀ (k : ℕ) (hk : k < envW.length), i ≤ k → k < j →
          cfgW.ratioDBP * (envW[i]).amplitude < (envW[k]).amplitude) :=
  C2_sbp_dbp_first_ratio_crossing cfgW envW resW (by decide)

/-- C3: the estimation algorithm fails exactly on deficient input: it returns
`InsufficientData` precisely when the Envelope sequence has fewer than
`minNbrPeaks` points, and `RatioCrossingNotFound` precisely when the sequence
is long enough but on at least one required side of the MAP point (index `i`,
the first argmax of amplitude) no point reaches the ratio target; it never
returns numbers in either situation. -/
theorem C3_failures_exactly_on_deficient_input (cfg : MeasurementConfig)
    (env : List Point) (hmin : 1 ≤ cfg.minNbrPeaks) :
    (estimate cfg env = .error .insufficientData ↔ env.length < cfg.minNbrPeaks) ∧
    (estimate cfg env = .error .ratioCrossingNotFound ↔
      (cfg.minNbrPeaks ≤ env.length ∧
       ∃ (i : ℕ) (hi : i < env.length),
         (∀ (j : ℕ) (hj : j < env.length), (env[j]).amplitude ≤ (env[i]).amplitude) ∧
         (∀ (j : ℕ) (hj : j < env.length), j < i →
           (env[j]).amplitude < (env[i]).amplitude) ∧
         ((∀ (j : ℕ) (hj : j < env.length), j ≤ i →
             cfg.ratioSBP * (env[i]).amplitude < (env[j]).amplitude) ∨
          (∀ (j : ℕ) (hj : j < env.length), i ≤ j →
             cfg.ratioDBP * (env[i]).amplitude < (env[j]).amplitude)))) := by
  by_cases hlt : env.length < cfg.minNbrPeaks
  · refine ⟨iff_of_true ?_ hlt, iff_of_false ?_ ?_⟩
    · unfold estimate
      rw [if_pos hlt]
    · intro hc
      unfold estimate at hc
      rw [if_pos hlt] at hc
      simp at hc
    · intro hc
      exact absurd hc.1 (not_le.mpr hlt)
  · have hle : cfg.minNbrPeaks ≤ env.length := le_of_not_lt hlt
    cases env with
    | nil =>
      simp only [List.length_nil] at hle
      omega
    | cons p r =>
      have hi : mapIdx p r < (p :: r).length := mapIdx_lt_length p r
      have hAt : ((p :: r)[mapIdx p r]).amplitude = maxAmp p r := amp_at_mapIdx p r hi
      have hEq : estimate cfg (p :: r) =
          match scanUp (p :: r) (cfg.ratioSBP * maxAmp p r) (mapIdx p r),
                scanDown (cfg.ratioDBP * maxAmp p r) ((p :: r).drop (mapIdx p r)) with
          | some ps, some pd => .ok ⟨(mapPoint p r).pressure, ps.pressure, pd.pressure⟩
          | none, _ => .error .ratioCrossingNotFound
          | _, none => .error .ratioCrossingNotFound := by
        unfold estimate
        rw [if_neg hlt]
      cases hSU : scanUp (p :: r) (cfg.ratioSBP * maxAmp p r) (mapIdx p r) with
      | none =>
        rw [hSU] at hEq
        have hE2 : estimate cfg (p :: r) = .error .ratioCrossingNotFound := by
          rw [hEq]
          cases scanDown (cfg.ratioDBP * maxAmp p r) ((p :: r).drop (mapIdx p r)) with
          | none => rfl
          | some pd => rfl
        refine ⟨iff_of_false ?_ hlt, iff_of_true hE2 ⟨hle, mapIdx p r, hi, ?_, ?_, ?_⟩⟩
        · intro hc
          rw [hE2] at hc
          simp at hc
        · intro j hj
          rw [hAt]
          exact le_maxAmp_of_mem_cons p r _ (List.getElem_mem _)
        · intro j hj hji
          rw [hAt]
          exact amp_before_mapIdx p r j hji hj
        · refine Or.inl ?_
          intro j hj hji
          rw [hAt]
          exact (scanUp_eq_none_iff (p :: r) (cfg.ratioSBP * maxAmp p r)
            (mapIdx p r) hi).mp hSU j hj hji
      | some ps =>
        cases hSD : scanDown (cfg.ratioDBP * maxAmp p r) ((p :: r).drop (mapIdx p r)) with
        | none =>
          rw [hSU, hSD] at hEq
          have hE2 : estimate cfg (p :: r) = .error .ratioCrossingNotFound := by
            rw [hEq]
          refine ⟨iff_of_false ?_ hlt, iff_of_true hE2 ⟨hle, mapIdx p r, hi, ?_, ?_, ?_⟩⟩
          · intro hc
            rw [hE2] at hc
            simp at hc
          · intro j hj
            rw [hAt]
            exact le_maxAmp_of_mem_cons p r _ (List.getElem_mem _)
          · intro j hj hji
            rw [hAt]
            exact amp_before_mapIdx p r j hji hj
          · refine Or.inr ?_
            intro j hj hji
            rw [hAt]
            have hnone := (scanDown_eq_none_iff (cfg.ratioDBP * maxAmp p r)
              ((p :: r).drop (mapIdx p r))).mp hSD
            have hjd : j - mapIdx p r < ((p :: r).drop (mapIdx p r)).length := by
              rw [List.length_drop]
              omega
            have hmem : ((p :: r).drop (mapIdx p r))[j - mapIdx p r] ∈
                (p :: r).drop (mapIdx p r) := List.getElem_mem _
            have hval : ((p :: r).drop (mapIdx p r))[j - mapIdx p r] = (p :: r)[j] := by
              have hstep : ((p :: r).drop (mapIdx p r))[j - mapIdx p r] =
                  (p :: r)[mapIdx p r + (j - mapIdx p r)] := List.getElem_drop _
              rw [hstep]
              exact getElem_congr_idx (p :: r) (by omega) hj (by omega)
            rw [hval] at hmem
            exact hnone _ hmem
        | some pd =>
          rw [hSU, hSD] at hEq
          have hE2 : estimate cfg (p :: r) =
              .ok ⟨(mapPoint p r).pressure, ps.pressure, pd.pressure⟩ := by
            rw [hEq]
          refine ⟨iff_of_false ?_ hlt, iff_of_false ?_ ?_⟩
          · intro hc
            rw [hE2] at hc
            simp at hc
          · intro hc
            rw [hE2] at hc
            simp at hc
          · rintro ⟨hle2, i, hi2, hmax, hfirst, hdisj⟩
            have hieq : i = mapIdx p r := first_argmax_unique p r i hi2 hmax hfirst
            subst hieq
            rcases hdisj with hL | hR
            · rcases scanUp_eq_some (p :: r) (cfg.ratioSBP * maxAmp p r)
                (mapIdx p r) hi ps hSU with ⟨j, hj, hji, hjq, hqa, hall⟩
              have := hL j hj hji
              rw [hAt, hjq] at this
              exact absurd hqa (not_le.mpr this)
            · rcases scanDown_eq_some (cfg.ratioDBP * maxAmp p r)
                ((p :: r).drop (mapIdx p r)) pd hSD with ⟨j0, hj0, hjq, hqa, hall⟩
              have hj0l : j0 < (p :: r).length - mapIdx p r := by
                rw [List.length_drop] at hj0
                exact hj0
              have hjb : mapIdx p r + j0 < (p :: r).length := by omega
              have := hR (mapIdx p r + j0) hjb (Nat.le_add_right _ _)
              have hdropj : ((p :: r).drop (mapIdx p r))[j0] =
                  (p :: r)[mapIdx p r + j0] := List.getElem_drop _
              rw [hAt, ← hdropj, hjq] at this
              exact absurd hqa (not_le.mpr this)

/-- Concrete configuration for the C3 witness: `minNbrPeaks = 5`. -/
def cfgW5 : MeasurementConfig := ⟨1/2, 3/4, 5, 180⟩

/-- Concrete three-point Envelope sequence for the C3 witness. -/
def envW3 : List Point := [⟨160, 2⟩, ⟨140, 5⟩, ⟨120, 10⟩]

/-- Witness for C3: the theorem applied with `minNbrPeaks = 5` and a three
point sequence; in particular the first conjunct forces the
`InsufficientData` failure there. -/
theorem C3_witness :
    (estimate cfgW5 envW3 = .error .insufficientData ↔
      envW3.length < cfgW5.minNbrPeaks) ∧
    (estimate cfgW5 envW3 = .error .ratioCrossingNotFound ↔
      (cfgW5.minNbrPeaks ≤ envW3.length ∧
       ∃ (i : ℕ) (hi : i < envW3.length),
         (∀ (j : ℕ) (hj : j < envW3.length),
           (envW3[j]).amplitude ≤ (envW3[i]).amplitude) ∧
         (∀ (j : ℕ) (hj : j < envW3.length), j < i →
           (envW3[j]).amplitude < (envW3[i]).amplitude) ∧
         ((∀ (j : ℕ) (hj : j < envW3.length), j ≤ i →
             cfgW5.ratioSBP * (envW3[i]).amplitude < (envW3[j]).amplitude) ∨
          (∀ (j : ℕ) (hj : j < envW3.length), i ≤ j →
             cfgW5.ratioDBP * (envW3[i]).amplitude < (envW3[j]).amplitude)))) :=
  C3_failures_exactly_on_deficient_input cfgW5 envW3 (by decide)

/-! ## Measurement state machine (spec section 4.4)

Modelled from the spec: the measurement state machine of the `Processing`
component is missing from the inspected sources; the definitions below follow
spec section 4.4. -/

/-- The measurement phases (spec section 3). -/
inductive Phase where
  | idle
  | waitInflate
  | deflating
  | waitEmptyCuff
  | result
deriving DecidableEq, Repr

/-- Modelled from the spec: the pressure thresholds that drive the automatic
transitions (pump-up target, near-empty threshold, empty-cuff threshold). -/
structure SMParams where
  pumpUpTarget : ℚ
  nearEmptyThreshold : ℚ
  zeroThreshold : ℚ
deriving DecidableEq, Repr

/-- Events fed to the state machine: the explicit user actions, one low-pass
trend sample, or one high-pass (pulsation) sample. -/
inductive SMEvent where
  | start
  | cancel
  | reset
  | trend (v : ℚ)
  | highPass (v : ℚ)

/-- Modelled from the spec: one transition of the measurement state machine
(spec 4.4).  Transitions are driven solely by the low-pass trend value and the
explicit user actions; every other event leaves the phase unchanged. -/
def smStep (P : SMParams) (ph : Phase) (e : SMEvent) : Phase :=
  match ph, e with
  | .idle, .start => .waitInflate
  | .waitInflate, .cancel => .idle
  | .deflating, .cancel => .idle
  | .waitEmptyCuff, .cancel => .idle
  | .result, .reset => .idle
  | .waitInflate, .trend v => if P.pumpUpTarget ≤ v then .deflating else .waitInflate
  | .deflating, .trend v => if v < P.nearEmptyThreshold then .waitEmptyCuff else .deflating
  | .waitEmptyCuff, .trend v => if v ≤ P.zeroThreshold then .result else .waitEmptyCuff
  | ph, _ => ph

/-- Feed a list of low-pass trend samples to the state machine. -/
def runTrend (P : SMParams) (ph : Phase) (vs : List ℚ) : Phase :=
  vs.foldl (fun q v => smStep P q (.trend v)) ph

/-- Number of transitions INTO `deflating` along a run of trend samples. -/
def deflatingEntries (P : SMParams) : Phase → List ℚ → ℕ
  | _, [] => 0
  | ph, v :: vs =>
    (if ph ≠ Phase.deflating ∧ smStep P ph (.trend v) = Phase.deflating then 1 else 0) +
      deflatingEntries P (smStep P ph (.trend v)) vs

/-! ### State-machine lemmas -/

theorem smStep_trend_ne_waitInflate (P : SMParams) (v : ℚ) (ph : Phase)
    (h : ph ≠ Phase.waitInflate) : smStep P ph (SMEvent.trend v) ≠ Phase.waitInflate := by
  cases ph with
  | idle => intro hc; cases hc
  | waitInflate => exact absurd rfl h
  | deflating =>
    show (if v < P.nearEmptyThreshold then Phase.waitEmptyCuff else Phase.deflating) ≠ _
    split
    · intro hc; cases hc
    · intro hc; cases hc
  | waitEmptyCuff =>
    show (if v ≤ P.zeroThreshold then Phase.result else Phase.waitEmptyCuff) ≠ _
    split
    · intro hc; cases hc
    · intro hc; cases hc
  | result => intro hc; cases hc

theorem smStep_trend_ne_deflating (P : SMParams) (v : ℚ) (ph : Phase)
    (h1 : ph ≠ Phase.waitInflate) (h2 : ph ≠ Phase.deflating) :
    smStep P ph (SMEvent.trend v) ≠ Phase.deflating := by
  cases ph with
  | idle => intro hc; cases hc
  | waitInflate => exact absurd rfl h1
  | deflating => exact absurd rfl h2
  | waitEmptyCuff =>
    show (if v ≤ P.zeroThreshold then Phase.result else Phase.waitEmptyCuff) ≠ _
    split
    · intro hc; cases hc
    · intro hc; cases hc
  | result => intro hc; cases hc

theorem deflatingEntries_of_ne_waitInflate (P : SMParams) (vs : List ℚ) :
    ∀ ph : Phase, ph ≠ Phase.waitInflate → deflatingEntries P ph vs = 0 := by
  induction vs with
  | nil => intro ph h; rfl
  | cons v vs ih =>
    intro ph h
    rw [deflatingEntries]
    have h1 := smStep_trend_ne_waitInflate P v ph h
    by_cases hd : ph = Phase.deflating
    · rw [if_neg (by simp [hd]), ih _ h1]
    · have h2 := smStep_trend_ne_deflating P v ph h hd
      rw [if_neg (by simp [h2]), ih _ h1]

theorem runTrend_stays_waitInflate (P : SMParams) (vs : List ℚ)
    (hall : ∀ v ∈ vs, v < P.pumpUpTarget) :
    runTrend P Phase.waitInflate vs = Phase.waitInflate := by
  induction vs with
  | nil => rfl
  | cons v vs ih =>
    have hv : v < P.pumpUpTarget := hall v (List.mem_cons_self _ _)
    have hstep : smStep P Phase.waitInflate (SMEvent.trend v) = Phase.waitInflate := by
      show (if P.pumpUpTarget ≤ v then Phase.deflating else Phase.waitInflate) = _
      rw [if_neg (not_le.mpr hv)]
    calc runTrend P Phase.waitInflate (v :: vs)
        = runTrend P (smStep P Phase.waitInflate (SMEvent.trend v)) vs := rfl
      _ = runTrend P Phase.waitInflate vs := by rw [hstep]
      _ = Phase.waitInflate := ih (fun u hu => hall u (List.mem_cons_of_mem _ hu))

theorem deflatingEntries_waitInflate_zero (P : SMParams) (vs : List ℚ)
    (hall : ∀ v ∈ vs, v < P.pumpUpTarget) :
    deflatingEntries P Phase.waitInflate vs = 0 := by
  induction vs with
  | nil => rfl
  | cons v vs ih =>
    have hv : v < P.pumpUpTarget := hall v (List.mem_cons_self _ _)
    have hstep : smStep P Phase.waitInflate (SMEvent.trend v) = Phase.waitInflate := by
      show (if P.pumpUpTarget ≤ v then Phase.deflating else Phase.waitInflate) = _
      rw [if_neg (not_le.mpr hv)]
    rw [deflatingEntries, hstep, if_neg (by simp),
      ih (fun u hu => hall u (List.mem_cons_of_mem _ hu))]

theorem deflatingEntries_waitInflate_one (P : SMParams) (vs : List ℚ)
    (hex : ∃ v ∈ vs, P.pumpUpTarget ≤ v) :
    deflatingEntries P Phase.waitInflate vs = 1 := by
  induction vs with
  | nil =>
    rcases hex with ⟨v, hv, _⟩
    cases hv
  | cons v vs ih =>
    by_cases hv : P.pumpUpTarget ≤ v
    · have hstep : smStep P Phase.waitInflate (SMEvent.trend v) = Phase.deflating := by
        show (if P.pumpUpTarget ≤ v then Phase.deflating else Phase.waitInflate) = _
        rw [if_pos hv]
      rw [deflatingEntries, hstep, if_pos ⟨by simp, rfl⟩,
        deflatingEntries_of_ne_waitInflate P vs Phase.deflating (by simp)]
    · have hstep : smStep P Phase.waitInflate (SMEvent.trend v) = Phase.waitInflate := by
        show (if P.pumpUpTarget ≤ v then Phase.deflating else Phase.waitInflate) = _
        rw [if_neg hv]
      have hex2 : ∃ u ∈ vs, P.pumpUpTarget ≤ u := by
        rcases hex with ⟨u, hu, hut⟩
        rcases List.mem_cons.mp hu with h | h
        · rw [h] at hut
          exact absurd hut hv
        · exact ⟨u, h, hut⟩
      rw [deflatingEntries, hstep, if_neg (by simp), ih hex2]

/-- C5: from `Idle`, `startMeasurement()` enters `WaitInflate`; a low-pass
trend run that never reaches `pumpUpTarget` keeps the machine in `WaitInflate`
(and never enters `Deflating`); a trend run that reaches the target enters
`Deflating` exactly once (not repeatedly); and no transition is ever driven by
the high-pass stream — a high-pass sample never changes the phase. -/
theorem C5_start_inflate_deflate_progression (P : SMParams) (vs : List ℚ) :
    smStep P Phase.idle SMEvent.start = Phase.waitInflate ∧
    ((∀ v ∈ vs, v < P.pumpUpTarget) →
      runTrend P Phase.waitInflate vs = Phase.waitInflate ∧
      deflatingEntries P Phase.waitInflate vs = 0) ∧
    ((∃ v ∈ vs, P.pumpUpTarget ≤ v) →
      deflatingEntries P Phase.waitInflate vs = 1) ∧
    (∀ (ph : Phase) (v : ℚ), smStep P ph (SMEvent.highPass v) = ph) := by
  refine ⟨rfl, ?_, ?_, ?_⟩
  · intro hall
    exact ⟨runTrend_stays_waitInflate P vs hall, deflatingEntries_waitInflate_zero P vs hall⟩
  · exact deflatingEntries_waitInflate_one P vs
  · intro ph v
    cases ph <;> rfl

/-- Witness for C5: with pump-up target 180, a trend run peaking at 179 stays
in `WaitInflate` with no entry into `Deflating`, while a run reaching 185
enters `Deflating` exactly once. -/
theorem C5_witness :
    (runTrend ⟨180, 20, 2⟩ Phase.waitInflate [100, 150, 179] = Phase.waitInflate ∧
      deflatingEntries ⟨180, 20, 2⟩ Phase.waitInflate [100, 150, 179] = 0) ∧
    deflatingEntries ⟨180, 20, 2⟩ Phase.waitInflate [100, 185, 190, 30] = 1 :=
  ⟨(C5_start_inflate_deflate_progression ⟨180, 20, 2⟩ [100, 150, 179]).2.1 (by decide),
   (C5_start_inflate_deflate_progression ⟨180, 20, 2⟩ [100, 185, 190, 30]).2.2.1 (by decide)⟩

/-! ## The hardware sample source (`ComediHandler.cpp`)

The handler's mutable interaction with the device is embedded as explicit
state passing on `DeviceState`: `scans` is the device's buffered data (one
entry per `read` of `readSize` bytes, holding the samples of all channels of
one scan) and `ended` records that the acquisition has ended, so that a read
finds no further data (returns 0 bytes).  The remaining fields are the
configuration the constructor computes once (`ComediHandler::ComediHandler`,
lines 26-136). -/
structure DeviceState where
  scans : List (List ℕ)
  ended : Bool
  rangeMin : ℚ
  rangeMax : ℚ
  maxdata : ℕ
  adChannel : ℕ
  samplingRate : ℚ
  numChannels : ℕ
deriving DecidableEq, Repr

/-- The two ways a device read can fail to produce a sample: the acquisition
has ended (`read` returns 0 — the code logs and calls `exit(-1)`, embedded as
a surfaced fatal error), or no data has been buffered yet (a blocking read
would stall; per the code comment the method must not be called then). -/
inductive ReadFailure where
  | endOfStream
  | wouldBlock
deriving DecidableEq, Repr

/-- `ComediHandler::getSamplingRate` (lines 142-144): returns the stored
`sampling_rate` field. -/
def getSamplingRate (d : DeviceState) : ℚ := d.samplingRate

/-- `ComediHandler::getBufferContents` (lines 150-152): the number of buffered
samples. -/
def getBufferContents (d : DeviceState) : ℕ := d.scans.length

/-- `ComediHandler::readRawSample` (lines 176-190): one `read` of `readSize`
bytes; if it returns 0 (end of acquisition) the program exits fatally with
code -1, embedded as `Except.error .endOfStream`; otherwise the sample of
channel `adChannel` of the scan just read is returned and exactly that one
scan is consumed. -/
def readRawSample (d : DeviceState) : Except ReadFailure (ℕ × DeviceState) :=
  match d.scans with
  | [] => if d.ended then .error .endOfStream else .error .wouldBlock
  | s :: rest => .ok (s.getD d.adChannel 0, { d with scans := rest })

/-- `ComediHandler::getRawSample` (lines 158-160): returns `readRawSample()`
directly. -/
def getRawSample (d : DeviceState) : Except ReadFailure (ℕ × DeviceState) :=
  readRawSample d

/-- Modelled from the spec and the comedi library (not part of the inspected
sources): `comedi_to_phys(data, crange, maxdata)` maps the raw ADC value
linearly onto the physical range `[rangeMin, rangeMax]`. -/
def comediToPhys (data : ℕ) (rmin rmax : ℚ) (maxdata : ℕ) : ℚ :=
  rmin + (rmax - rmin) * data / maxdata

/-- `ComediHandler::getVoltageSample` (lines 167-169): reads one raw sample
via `readRawSample()` and converts it with `comedi_to_phys` using the stored
range and `maxdata`. -/
def getVoltageSample (d : DeviceState) : Except ReadFailure (ℚ × DeviceState) :=
  match readRawSample d with
  | .error e => .error e
  | .ok (v, dd) => .ok (comediToPhys v d.rangeMin d.rangeMax d.maxdata, dd)

/-- One iteration outcome of the acquisition loop. -/
inductive LoopStep where
  | fatal (e : ReadFailure)
  | sampled (v : ℕ) (d : DeviceState)
  | waiting (d : DeviceState)
deriving DecidableEq, Repr

/-- Modelled from the spec: one iteration of the acquisition loop (spec 4.1,
`Processing::run`, missing from the inspected sources).  The loop polls the
buffered-sample count; with no data buffered and the acquisition still alive
it retries (transient no-data), otherwise it pulls exactly one sample and a
fatal read failure terminates the loop, surfacing the error. -/
def loopIteration (d : DeviceState) : LoopStep :=
  if getBufferContents d = 0 ∧ d.ended = false then .waiting d
  else
    match getRawSample d with
    | .error e => .fatal e
    | .ok (v, dd) => .sampled v dd

/-- C4: when the device read reports end-of-stream (no buffered data and the
acquisition has ended), `getRawSample` and `getVoltageSample` fail fatally —
the fatal error is surfaced, never a numeric result — and the acquisition loop
terminates with exactly that error; the transient no-data-yet condition
(empty buffer, acquisition alive) is instead detected via the buffered-sample
count and retried, and any fatal loop outcome is exactly the surfaced failure
of the underlying read. -/
theorem C4_end_of_stream_fatal_vs_transient (d : DeviceState) :
    (d.scans = [] → d.ended = true →
      getRawSample d = .error .endOfStream ∧
      getVoltageSample d = .error .endOfStream ∧
      loopIteration d = .fatal .endOfStream) ∧
    (d.scans = [] → d.ended = false → loopIteration d = .waiting d) ∧
    (∀ e, loopIteration d = .fatal e → getRawSample d = .error e) := by
  refine ⟨?_, ?_, ?_⟩
  · intro hscans hended
    have hraw : getRawSample d = .error .endOfStream := by
      unfold getRawSample readRawSample
      rw [hscans]
      simp [hended]
    refine ⟨hraw, ?_, ?_⟩
    · unfold getVoltageSample
      rw [show readRawSample d = .error .endOfStream from hraw]
    · unfold loopIteration
      rw [if_neg (by simp [hended]), hraw]
  · intro hscans hended
    unfold loopIteration
    rw [if_pos ⟨by simp [getBufferContents, hscans], hended⟩]
  · intro e h
    unfold loopIteration at h
    split at h
    · cases h
    · split at h
      next heq =>
        injection h with h1
        rw [heq, h1]
      next => cases h

/-- Witness for C4: a drained, ended device fails fatally and the loop
surfaces it; the same empty buffer with the acquisition alive is retried. -/
theorem C4_witness :
    (getRawSample ⟨[], true, 0, 5, 100, 0, 1000, 1⟩ = .error .endOfStream ∧
      getVoltageSample ⟨[], true, 0, 5, 100, 0, 1000, 1⟩ = .error .endOfStream ∧
      loopIteration ⟨[], true, 0, 5, 100, 0, 1000, 1⟩ = .fatal .endOfStream) ∧
    loopIteration ⟨[], false, 0, 5, 100, 0, 1000, 1⟩ =
      .waiting ⟨[], false, 0, 5, 100, 0, 1000, 1⟩ :=
  ⟨(C4_end_of_stream_fatal_vs_transient ⟨[], true, 0, 5, 100, 0, 1000, 1⟩).1 rfl rfl,
   (C4_end_of_stream_fatal_vs_transient ⟨[], false, 0, 5, 100, 0, 1000, 1⟩).2.1 rfl rfl⟩

/-- C6: every successful `getRawSample` and `getVoltageSample` call pulls
exactly one sample — one read consuming exactly the first buffered scan — and
the voltage sample is the `comedi_to_phys` conversion (with the stored device
range and `maxdata`) of the raw sample pulled by that same read (same value,
same resulting device state). -/
theorem C6_voltage_is_conversion_of_same_single_read (d : DeviceState) :
    (∀ v dd, getRawSample d = .ok (v, dd) →
      dd.scans = d.scans.tail ∧ d.scans.length = dd.scans.length + 1 ∧
      v = (d.scans.headD []).getD d.adChannel 0) ∧
    (∀ x dd, getVoltageSample d = .ok (x, dd) →
      dd.scans = d.scans.tail ∧
      ∃ v, getRawSample d = .ok (v, dd) ∧
        x = comediToPhys v d.rangeMin d.rangeMax d.maxdata) := by
  obtain ⟨scans, ended, rmin, rmax, md, ch, sr, nc⟩ := d
  constructor
  · intro v dd h
    cases scans with
    | nil =>
      cases ended with
      | false => exact absurd h (by simp [getRawSample, readRawSample])
      | true => exact absurd h (by simp [getRawSample, readRawSample])
    | cons s rest =>
      simp only [getRawSample, readRawSample] at h
      injection h with h1
      injection h1 with h2 h3
      subst h2
      subst h3
      exact ⟨rfl, rfl, rfl⟩
  · intro x dd h
    cases scans with
    | nil =>
      cases ended with
      | false => exact absurd h (by simp [getVoltageSample, readRawSample])
      | true => exact absurd h (by simp [getVoltageSample, readRawSample])
    | cons s rest =>
      simp only [getVoltageSample, readRawSample] at h
      injection h with h1
      injection h1 with h2 h3
      subst h3
      exact ⟨rfl, s.getD ch 0, rfl, h2.symm⟩

/-- Witness for C6: one concrete read from a two-scan buffer consumes exactly
the first scan and converts it. -/
theorem C6_witness :
    (∀ v dd, getRawSample ⟨[[40], [40]], false, 0, 5, 100, 0, 1000, 1⟩ = .ok (v, dd) →
      dd.scans = ([[40], [40]] : List (List ℕ)).tail ∧
      ([[40], [40]] : List (List ℕ)).length = dd.scans.length + 1 ∧
      v = (([[40], [40]] : List (List ℕ)).headD []).getD 0 0) :=
  (C6_voltage_is_conversion_of_same_single_read ⟨[[40], [40]], false, 0, 5, 100, 0, 1000, 1⟩).1

/-- The handler operations the engine may invoke after construction. -/
inductive HandlerOp where
  | samplingRateQuery
  | bufferContentsQuery
  | rawSample
  | voltageSample
deriving DecidableEq, Repr

/-- State effect of one handler operation: a successful read consumes one
scan; the queries read fields only, and after a fatal read failure the program
has exited, so the unchanged state stands in for it. -/
def applyOp (d : DeviceState) : HandlerOp → DeviceState
  | .rawSample =>
    match getRawSample d with
    | .ok (_, dd) => dd
    | .error _ => d
  | .voltageSample =>
    match getVoltageSample d with
    | .ok (_, dd) => dd
    | .error _ => d
  | _ => d

/-- State effect of a sequence of handler operations. -/
def applyOps (d : DeviceState) (ops : List HandlerOp) : DeviceState :=
  ops.foldl applyOp d

/-- `ComediHandler::ComediHandler` (lines 102-115): the sampling rate computed
once at construction.  With channel-by-channel timing
(`convert_src == TRIG_TIMER`, nonzero `convert_arg`) the rate is
`1e9 / convert_arg / numChannels`; with scan-by-scan timing
(`scan_begin_src == TRIG_TIMER`, nonzero `scan_begin_arg`) it is
`1e9 / scan_begin_arg`, overriding the former; `initRate` stands for the field
value when neither branch applies. -/
def computeSamplingRate (convertTimer : Bool) (convertArg : ℕ) (scanTimer : Bool)
    (scanArg : ℕ) (numChannels : ℕ) (initRate : ℚ) : ℚ :=
  let r1 := if convertTimer = true ∧ convertArg ≠ 0
    then ((1000000000 : ℚ) / convertArg) / numChannels else initRate
  if scanTimer = true ∧ scanArg ≠ 0 then (1000000000 : ℚ) / scanArg else r1

/-- `ComediHandler::ComediHandler`: the handler state after construction, with
channel 0 selected (`adChannel(0)`) and the sampling rate computed once from
the comedi command parameters. -/
def mkComediHandler (convertTimer : Bool) (convertArg : ℕ) (scanTimer : Bool)
    (scanArg : ℕ) (numCh maxdata : ℕ) (rmin rmax initRate : ℚ)
    (scans : List (List ℕ)) (ended : Bool) : DeviceState :=
  { scans := scans, ended := ended, rangeMin := rmin, rangeMax := rmax,
    maxdata := maxdata, adChannel := 0,
    samplingRate := computeSamplingRate convertTimer convertArg scanTimer scanArg
      numCh initRate,
    numChannels := numCh }

theorem applyOp_frame (d : DeviceState) (op : HandlerOp) :
    (applyOp d op).samplingRate = d.samplingRate ∧
    (applyOp d op).rangeMin = d.rangeMin ∧
    (applyOp d op).rangeMax = d.rangeMax ∧
    (applyOp d op).maxdata = d.maxdata ∧
    (applyOp d op).adChannel = d.adChannel ∧
    (applyOp d op).numChannels = d.numChannels := by
  obtain ⟨scans, ended, rmin, rmax, md, ch, sr, nc⟩ := d
  cases op with
  | samplingRateQuery => exact ⟨rfl, rfl, rfl, rfl, rfl, rfl⟩
  | bufferContentsQuery => exact ⟨rfl, rfl, rfl, rfl, rfl, rfl⟩
  | rawSample =>
    cases scans with
    | nil => cases ended <;> exact ⟨rfl, rfl, rfl, rfl, rfl, rfl⟩
    | cons s rest => exact ⟨rfl, rfl, rfl, rfl, rfl, rfl⟩
  | voltageSample =>
    cases scans with
    | nil => cases ended <;> exact ⟨rfl, rfl, rfl, rfl, rfl, rfl⟩
    | cons s rest => exact ⟨rfl, rfl, rfl, rfl, rfl, rfl⟩

theorem applyOps_frame (ops : List HandlerOp) : ∀ d : DeviceState,
    (applyOps d ops).samplingRate = d.samplingRate ∧
    (applyOps d ops).rangeMin = d.rangeMin ∧
    (applyOps d ops).rangeMax = d.rangeMax ∧
    (applyOps d ops).maxdata = d.maxdata ∧
    (applyOps d ops).adChannel = d.adChannel ∧
    (applyOps d ops).numChannels = d.numChannels := by
  induction ops with
  | nil => exact fun d => ⟨rfl, rfl, rfl, rfl, rfl, rfl⟩
  | cons op ops ih =>
    intro d
    have h1 := applyOp_frame d op
    have h2 := ih (applyOp d op)
    exact ⟨h2.1.trans h1.1, h2.2.1.trans h1.2.1, h2.2.2.1.trans h1.2.2.1,
      h2.2.2.2.1.trans h1.2.2.2.1, h2.2.2.2.2.1.trans h1.2.2.2.2.1,
      h2.2.2.2.2.2.trans h1.2.2.2.2.2⟩

/-- C7: the sampling rate is fixed for the lifetime of the handler:
`getSamplingRate` returns on every call the stored `sampling_rate`; no
sequence of handler operations (`getBufferContents`, `getRawSample`,
`getVoltageSample`, `getSamplingRate`) modifies it or any other configuration
field (range, `maxdata`, `adChannel`, `numChannels`); and on a constructed
handler `getSamplingRate` returns, after any operation sequence, exactly the
value computed once at construction. -/
theorem C7_sampling_rate_fixed_frame (d : DeviceState) (ops : List HandlerOp) :
    getSamplingRate (applyOps d ops) = d.samplingRate ∧
    (applyOps d ops).samplingRate = d.samplingRate ∧
    (applyOps d ops).rangeMin = d.rangeMin ∧
    (applyOps d ops).rangeMax = d.rangeMax ∧
    (applyOps d ops).maxdata = d.maxdata ∧
    (applyOps d ops).adChannel = d.adChannel ∧
    (applyOps d ops).numChannels = d.numChannels ∧
    (∀ (convertTimer : Bool) (convertArg : ℕ) (scanTimer : Bool) (scanArg : ℕ)
       (numCh maxdata : ℕ) (rmin rmax initRate : ℚ) (scans : List (List ℕ))
       (ended : Bool),
      getSamplingRate (applyOps (mkComediHandler convertTimer convertArg scanTimer
          scanArg numCh maxdata rmin rmax initRate scans ended) ops) =
        computeSamplingRate convertTimer convertArg scanTimer scanArg numCh initRate) := by
  have h := applyOps_frame ops d
  refine ⟨h.1, h.1, h.2.1, h.2.2.1, h.2.2.2.1, h.2.2.2.2.1, h.2.2.2.2.2, ?_⟩
  intro convertTimer convertArg scanTimer scanArg numCh maxdata rmin rmax initRate scans ended
  exact (applyOps_frame ops (mkComediHandler convertTimer convertArg scanTimer scanArg
    numCh maxdata rmin rmax initRate scans ended)).1

/-! ## The presentation layer (`Window.cpp`) -/

/-- The mutexes of the `Window` class used on the shared plot data path. -/
inductive MutexId where
  | mtxPlt
deriving DecidableEq, Repr

/-- Atomic actions of a presentation-layer handler, as they relate to the
shared latest-filtered-pair plot data. -/
inductive UIAction where
  | lockMutex (m : MutexId)
  | unlockMutex (m : MutexId)
  | plotDataWrite
  | plotDataRead
  | nonPlotAction
deriving DecidableEq, Repr

/-- `Window::eNewData` (lines 563-572): lock `mtxPlt`, write the new low-pass
and high-pass values into the two plots (`setNewData`), unlock, then update
the pressure meter through a queued cross-thread call that touches no shared
plot data. -/
def eNewDataActions : List UIAction :=
  [.lockMutex .mtxPlt, .plotDataWrite, .plotDataWrite, .unlockMutex .mtxPlt,
   .nonPlotAction]

/-- `Window::timerEvent` (lines 547-553): lock `mtxPlt`, replot both plots
(reading the stored data), unlock. -/
def timerEventActions : List UIAction :=
  [.lockMutex .mtxPlt, .plotDataRead, .plotDataRead, .unlockMutex .mtxPlt]

/-- Checks, tracking the lock depth, that every shared-plot-data access happens
with a mutex held, that the critical section contains nothing but those
accesses (the lock is held only long enough to copy values in or out), and
that every lock is released by the end of the handler. -/
def accessesGuardedFrom (depth : ℕ) : List UIAction → Bool
  | [] => depth == 0
  | a :: rest =>
    match a with
    | .lockMutex _ => accessesGuardedFrom (depth + 1) rest
    | .unlockMutex _ => depth != 0 && accessesGuardedFrom (depth - 1) rest
    | .plotDataWrite => depth != 0 && accessesGuardedFrom depth rest
    | .plotDataRead => depth != 0 && accessesGuardedFrom depth rest
    | .nonPlotAction => depth == 0 && accessesGuardedFrom depth rest

/-- The mutexes a handler takes or releases, in order. -/
def mutexesUsed : List UIAction → List MutexId
  | [] => []
  | .lockMutex m :: rest => m :: mutexesUsed rest
  | .unlockMutex m :: rest => m :: mutexesUsed rest
  | _ :: rest => mutexesUsed rest

/-- C8: both presentation-layer accesses to the shared latest-filtered-pair
data — `eNewData` writing the new pair in and `timerEvent` reading it for the
replot — perform every shared-data access inside a lock/unlock critical
section that contains nothing else (the mutex is held only long enough to copy
the values in or out and is released before the handler ends), and the only
mutex either handler ever takes is the single shared `mtxPlt`. -/
theorem C8_shared_pair_guarded_by_single_mutex :
    accessesGuardedFrom 0 eNewDataActions = true ∧
    accessesGuardedFrom 0 timerEventActions = true ∧
    mutexesUsed eNewDataActions = [.mtxPlt, .mtxPlt] ∧
    mutexesUsed timerEventActions = [.mtxPlt, .mtxPlt] :=
  ⟨rfl, rfl, rfl, rfl⟩

/-- `QString::number(x, 'f', 0)`: the value rendered with zero decimal places,
modelled as rounding to the nearest integer and rendering it. -/
def qtNumberF0 (x : ℚ) : String := toString (round x)

/-- The two heart-rate labels of the `Window`: the instantaneous display
("Current heart rate", deflation screen) and the run-average display
("Heart rate", result screen). -/
structure HeartRateLabels where
  lheartRate : String
  lHRvalAV : String
deriving DecidableEq, Repr

/-- `Window::eHeartRate` (lines 645-655): one incoming heart-rate value
overwrites both labels, each rendered with zero decimals. -/
def eHeartRate (_w : HeartRateLabels) (heartRate : ℚ) : HeartRateLabels :=
  { lheartRate := "Current heart rate:<br><b>" ++ qtNumberF0 heartRate ++ "</b>",
    lHRvalAV := qtNumberF0 heartRate ++ " beats/min" }

/-- C9: every heart-rate notification updates both the instantaneous display
and the run-average display with the same value rounded to zero decimals, and
the handler does not distinguish a per-beat value from the run average: any
incoming value overwrites both fields regardless of the previous state. -/
theorem C9_heart_rate_overwrites_both_displays (w1 w2 : HeartRateLabels)
    (heartRate : ℚ) :
    eHeartRate w1 heartRate = eHeartRate w2 heartRate ∧
    ∃ s : String, s = qtNumberF0 heartRate ∧
      (eHeartRate w1 heartRate).lheartRate =
        "Current heart rate:<br><b>" ++ s ++ "</b>" ∧
      (eHeartRate w1 heartRate).lHRvalAV = s ++ " beats/min" :=
  ⟨rfl, qtNumberF0 heartRate, rfl, rfl, rfl⟩

/-- The commands of the `Processing` engine that the `Window` button handlers
invoke. -/
inductive ProcessCommand where
  | startMeasurement
  | stopMeasurement
deriving DecidableEq, Repr

/-- `Window::clkBtnStart` (lines 680-683): the Start button calls
`process->startMeasurement()` and nothing else. -/
def clkBtnStart : List ProcessCommand := [.startMeasurement]

/-- `Window::clkBtnCancel` (lines 688-691): the Cancel button calls
`process->stopMeasurement()` and nothing else. -/
def clkBtnCancel : List ProcessCommand := [.stopMeasurement]

/-- `Window::clkBtnReset` (lines 696-699): the Reset button calls
`process->stopMeasurement()` and nothing else. -/
def clkBtnReset : List ProcessCommand := [.stopMeasurement]

/-- C10: the Reset button (on the Result screen) and the Cancel button invoke
exactly the same engine command sequence — the single call
`stopMeasurement()` and nothing else — so the user reset from Result and the
mid-measurement cancel are indistinguishable to the engine at the command
interface. -/
theorem C10_reset_and_cancel_same_command :
    clkBtnReset = clkBtnCancel ∧ clkBtnReset = [ProcessCommand.stopMeasurement] :=
  ⟨rfl, rfl⟩

end OBP
